import Mathlib

/-!
Verification of the study-notes repository `GFE_notes`.

The repository is a collection of JavaScript/TypeScript snippets
(polyfills, closures, promises, React hooks).  Each snippet is shallowly
embedded below as a Lean definition translated from the corresponding
source file, and the claims about the repository are settled as theorems
over those definitions.
-/

set_option maxHeartbeats 1000000

/-! ## JavaScript values

A small universe of plain JavaScript values, enough for the snippets:
`undef` is `undefined`, the rest are primitives. -/

inductive JSVal where
  | undef
  | null
  | bool (b : Bool)
  | num (n : Int)
  | str (s : String)
deriving DecidableEq, Repr

/-! ## The Promise polyfill (src/polyfills.md, §7.1)

The polyfill stores `state` (`"pending" | "fulfilled" | "rejected"`),
`value` (initially `undefined`) and a list of pending `handlers`.
A user callback passed to `then` is modelled as
`Option (JSVal → Except JSVal JSVal)`: `none` when the argument is not a
function (the `typeof onFulfilled === "function"` check), `Except.error`
when the callback throws. -/

namespace PromisePolyfill

inductive PState where
  | pending
  | fulfilled
  | rejected
deriving DecidableEq, Repr

/-- The callback type of a `then` handler: `none` models a non-function
argument; a thrown exception is `Except.error`. -/
def Callback : Type := Option (JSVal → Except JSVal JSVal)

/-- A handler pushed by `then` onto a pending promise: the pair of
(possibly absent) user callbacks it closes over. -/
structure Handler where
  onFulfilled : Callback
  onRejected : Callback

/-- The mutable fields of a polyfill promise object:
`this.state`, `this.value`, `this.handlers`. -/
structure PromiseObj where
  state : PState
  value : JSVal
  handlers : List Handler

/-- A freshly constructed promise before the executor runs:
`state = "pending"`, `value = undefined`, `handlers = []`. -/
def freshPromise : PromiseObj := ⟨PState.pending, JSVal.undef, []⟩

/-- The function `resolve` from the polyfill's constructor: if the state is not
`"pending"` it returns immediately; otherwise it sets state to
`"fulfilled"`, stores the value, and notifies every stored handler
(`this.handlers.forEach(h => h.onFulfilled(value))`).  The returned list
records the notifications `(handler, value)` issued to other promises. -/
def resolve (p : PromiseObj) (v : JSVal) : PromiseObj × List (Handler × JSVal) :=
  if p.state = PState.pending then
    ({ p with state := PState.fulfilled, value := v }, p.handlers.map (fun h => (h, v)))
  else
    (p, [])

/-- The function `reject` from the polyfill's constructor, symmetric to `resolve`. -/
def reject (p : PromiseObj) (e : JSVal) : PromiseObj × List (Handler × JSVal) :=
  if p.state = PState.pending then
    ({ p with state := PState.rejected, value := e }, p.handlers.map (fun h => (h, e)))
  else
    (p, [])

/-- The `onFulfilled` branch of the handler object built inside `then`:
if the user callback is a function, run it and `resolve`/`reject` the
derived promise `p2` with its result or its thrown exception; otherwise
pass the value through with `resolve`. -/
def runOnFulfilled (h : Handler) (v : JSVal) (p2 : PromiseObj) : PromiseObj :=
  match h.onFulfilled with
  | some f =>
    match f v with
    | Except.ok r => (resolve p2 r).1
    | Except.error e => (reject p2 e).1
  | none => (resolve p2 v).1

/-- The `onRejected` branch of the handler object built inside `then`,
symmetric to `runOnFulfilled`: an absent callback propagates the
rejection. -/
def runOnRejected (h : Handler) (e : JSVal) (p2 : PromiseObj) : PromiseObj :=
  match h.onRejected with
  | some f =>
    match f e with
    | Except.ok r => (resolve p2 r).1
    | Except.error e' => (reject p2 e').1
  | none => (reject p2 e).1

/-- Method `Promise.prototype.then`: builds the derived promise `p2` (fresh) and
the handler; if `this` is pending it pushes the handler, otherwise it
invokes the matching branch immediately, during the call.  Returns the
(possibly updated) source promise, the derived promise as it is when
`then` returns, and whether a handler branch ran during the call. -/
def promiseThen (p : PromiseObj) (onF onR : Callback) :
    PromiseObj × PromiseObj × Bool :=
  let h : Handler := ⟨onF, onR⟩
  match p.state with
  | PState.pending => ({ p with handlers := p.handlers ++ [h] }, freshPromise, false)
  | PState.fulfilled => (p, runOnFulfilled h p.value freshPromise, true)
  | PState.rejected => (p, runOnRejected h p.value freshPromise, true)

end PromisePolyfill

/-! ## Array.prototype.map polyfill (src/polyfills.md, §5.2)

An array-like object is a `length` property (a JS integer, possibly
negative before the `>>> 0` conversion) together with a partial map from
indices to elements: `elems k = none` models a hole (`k in O` false),
`some v` a present element.  The callback receives element, index and the
whole object; `thisArg` is already bound inside the Lean callback, since
`callback.call(thisArg, …)` only fixes its `this`. -/

namespace ArrayPolyfill

structure ArrayLike (α : Type) where
  length : Int
  elems : Nat → Option α

/-- The `>>> 0` conversion applied to an integer-valued JS number:
reduction modulo 2^32 into a non-negative integer. -/
def toUint32 (n : Int) : Nat := (n % (2 ^ 32 : Int)).toNat

/-- Construction `new Array(len)`: length `len`, every index a hole. -/
def newArray {β : Type} (len : Nat) : ArrayLike β :=
  ⟨(len : Int), fun _ => none⟩

/-- Assignment `A[k] = v` on an array: stores `v` at `k` and, as in JS, grows
`length` to `k + 1` when the index lies beyond it. -/
def setElem {β : Type} (A : ArrayLike β) (k : Nat) (v : β) : ArrayLike β :=
  ⟨max A.length ((k : Int) + 1), fun i => if i = k then some v else A.elems i⟩

/-- The body of the polyfill's `for` loop at index `k`:
`if (k in O) A[k] = callback.call(thisArg, O[k], k, O)`. -/
def mapLoopStep {α β : Type} (O : ArrayLike α) (callback : α → Nat → ArrayLike α → β)
    (A : ArrayLike β) (k : Nat) : ArrayLike β :=
  match O.elems k with
  | some v => setElem A k (callback v k O)
  | none => A

/-- The `Array.prototype.map` polyfill: `len = O.length >>> 0`,
`A = new Array(len)`, then the loop `for (k = 0; k < len; k++)` running
`mapLoopStep`, and `return A`. -/
def mapPolyfill {α β : Type} (O : ArrayLike α) (callback : α → Nat → ArrayLike α → β) :
    ArrayLike β :=
  let len := toUint32 O.length
  (List.range len).foldl (mapLoopStep O callback) (newArray len)

/-- The native/reference definition of `map` as the claim words it: a new
array of length `len = O.length >>> 0` whose entry at each `k < len`
present in `O` is `callback(O[k], k, O)`, holes of `O` left as holes.
This definition follows the specification text, for comparison with
`mapPolyfill`, which is translated from the source. -/
def mapNativeSpec {α β : Type} (O : ArrayLike α) (callback : α → Nat → ArrayLike α → β) :
    ArrayLike β :=
  let len := toUint32 O.length
  ⟨(len : Int), fun k =>
    if k < len then (O.elems k).map (fun v => callback v k O) else none⟩

end ArrayPolyfill

/-! ## The `cycle` closure (src/closures.md)

`cycle<T>(...values)` keeps a private `index`, returns `values[index]`
and updates `index = (index + 1) % values.length`.  A JS array index is
either a number or `NaN` (which `(index + 1) % 0` produces); indexing
with `NaN` or out of range yields `undefined`, modelled as `none`. -/

namespace CycleClosure

/-- The value of the closure's `index` variable: a non-negative integer
or `NaN`. -/
inductive JSIdx where
  | nan
  | num (n : Nat)
deriving DecidableEq, Repr

/-- Lookup `values[i]` for an index that may be `NaN` or out of range:
`none` models `undefined`. -/
def jsGet {α : Type} (values : List α) : JSIdx → Option α
  | JSIdx.nan => none
  | JSIdx.num n => values.get? n

/-- The update `(index + 1) % values.length` in JS arithmetic: any modulus by `0`
gives `NaN`, and `NaN + 1` stays `NaN`. -/
def jsModSucc (i : JSIdx) (len : Nat) : JSIdx :=
  match len with
  | 0 => JSIdx.nan
  | m + 1 =>
    match i with
    | JSIdx.nan => JSIdx.nan
    | JSIdx.num n => JSIdx.num ((n + 1) % (m + 1))

/-- The closure's `index` just before its `j`-th call (0-indexed):
initialised to `0` by `cycle`, then updated once per call. -/
def cycleIdx {α : Type} (values : List α) : Nat → JSIdx
  | 0 => JSIdx.num 0
  | j + 1 => jsModSucc (cycleIdx values j) values.length

/-- The value returned by the closure's `j`-th call (0-indexed):
`values[index]` at the current index. -/
def cycleNth {α : Type} (values : List α) (j : Nat) : Option α :=
  jsGet values (cycleIdx values j)

end CycleClosure

/-! ## The `debounce` closure (src/closures.md)

`debounce(fn, delay)` keeps a private `timer`.  Each invocation runs
`clearTimeout(timer)` and re-arms `timer = setTimeout(() => fn(...args), delay)`.
The run of a finite sequence of invocations `(time, args)` in increasing
time order is modelled below; a pending timer fires when its scheduled
time arrives before (or at) the next invocation. -/

namespace DebounceClosure

/-- Processes the invocation list given the pending timer
(`some (fireTime, args)` when armed).  An invocation whose time is
before the pending fire time cancels it (`clearTimeout`), otherwise the
timer has already fired; either way the invocation re-arms the timer for
`delay` ms later with its own arguments.  After the last invocation a
still-pending timer fires.  Returns the `(fireTime, args)` executions of
`fn`, in order. -/
def debounceExec {α : Type} (delay : Nat) :
    Option (Nat × α) → List (Nat × α) → List (Nat × α)
  | none, [] => []
  | some p, [] => [p]
  | none, (t, a) :: rest => debounceExec delay (some (t + delay, a)) rest
  | some (ft, b), (t, a) :: rest =>
    if ft ≤ t then (ft, b) :: debounceExec delay (some (t + delay, a)) rest
    else debounceExec delay (some (t + delay, a)) rest

/-- A full run of the debounced function against a timeline of
invocations, starting with no timer armed. -/
def debounceRun {α : Type} (delay : Nat) (invocations : List (Nat × α)) : List (Nat × α) :=
  debounceExec delay none invocations

end DebounceClosure

/-! ## useAsync (src/README.md, §6.1)

`execute` calls `asyncFn()`; if it returns `null` nothing happens.
Otherwise it sets `{loading: true, error: null, value: null}`, awaits the
promise, and at settlement checks `mounted.current` before any further
state update.  The settlement outcome and the value of `mounted.current`
at settlement time are the inputs of the model; the output records every
`setState` call and the rethrown error, so that "no state update" is a
statement about the trace. -/

namespace UseAsync

/-- The settlement of the awaited promise. -/
inductive Outcome (ε τ : Type) where
  | ok (t : τ)
  | err (e : ε)

/-- The `AsyncState<T>` record: `loading`, `error` (`none` = `null`),
`value` (`none` = `null`). -/
structure AsyncState (ε τ : Type) where
  loading : Bool
  error : Option ε
  value : Option τ
deriving DecidableEq, Repr

/-- The observable behaviour of one call to `execute`:
the `setState` issued before the `await` (absent when `asyncFn` returned
`null`), the `setState` issued at settlement (absent when unmounted or
when no promise was produced), the value returned, and the error
rethrown by the `catch` branch. -/
structure ExecTrace (ε τ : Type) where
  startUpdate : Option (AsyncState ε τ)
  settleUpdate : Option (AsyncState ε τ)
  returned : Option τ
  thrown : Option ε
deriving DecidableEq, Repr

/-- The callback `execute`, as a function of what `asyncFn()` produced (`none` models
a `null` return, `some out` a promise settling with `out`) and of
`mounted.current` at settlement time. -/
def execute {ε τ : Type} (res : Option (Outcome ε τ)) (mountedAtSettle : Bool) :
    ExecTrace ε τ :=
  match res with
  | none => ⟨none, none, none, none⟩
  | some out =>
    let start : AsyncState ε τ := ⟨true, none, none⟩
    if mountedAtSettle then
      match out with
      | Outcome.ok t => ⟨some start, some ⟨false, none, some t⟩, some t, none⟩
      | Outcome.err e => ⟨some start, some ⟨false, some e, none⟩, none, some e⟩
    else
      ⟨some start, none, none, none⟩

end UseAsync

/-! ## useWebSocket (src/README.md, §6.2)

The hook keeps `reconnectRef.current = { attempts, shouldReconnect }`.
The `onclose` handler sets `readyState = 3` and, when `shouldReconnect`
is set, computes `min(10000, 1000 * 2 ** attempts)`, increments
`attempts` and schedules `setTimeout(connect, timeout)`.  The effect's
cleanup sets `shouldReconnect = false` and closes the socket. -/

namespace UseWebSocket

structure ReconnectState where
  attempts : Nat
  shouldReconnect : Bool
deriving DecidableEq, Repr

/-- What one firing of `onclose` does: the new `readyState`, the updated
reconnect ref, and the delay of the `setTimeout(connect, …)` it
scheduled, if any. -/
structure OncloseEffect where
  newReadyState : Nat
  reconnect : ReconnectState
  scheduledReconnect : Option Nat
deriving DecidableEq, Repr

/-- The `onclose` handler installed by `connect`. -/
def onclose (r : ReconnectState) : OncloseEffect :=
  if r.shouldReconnect then
    let timeout := min 10000 (1000 * 2 ^ r.attempts)
    ⟨3, ⟨r.attempts + 1, r.shouldReconnect⟩, some timeout⟩
  else
    ⟨3, r, none⟩

/-- The effect's cleanup function: `reconnectRef.current.shouldReconnect = false`
(the `socketRef.current?.close()` only affects the socket object). -/
def cleanup (r : ReconnectState) : ReconnectState :=
  { r with shouldReconnect := false }

/-- The reconnect ref after `k` further firings of `onclose`. -/
def oncloseIter (r : ReconnectState) : Nat → ReconnectState
  | 0 => r
  | k + 1 => (onclose (oncloseIter r k)).reconnect

end UseWebSocket

/-! ## useUndoRedo (src/README.md, §6.4)

State is the triple `(past, present, future)`.  `set` appends `present`
to `past`, installs the new value (applying it to `present` when it is a
function) and empties `future`.  `undo` moves the last element of `past`
to `present`, pushing `present` onto `future`; `redo` is symmetric on
`future`.  Both are no-ops on an empty history side. -/

namespace UseUndoRedo

structure UndoState (α : Type) where
  past : List α
  present : α
  future : List α
deriving DecidableEq, Repr

/-- Operation `set(value)`: `value` is either a plain value or an updater function
applied to the current `present` (the `typeof value === 'function'`
branch); `future` is reset to `[]`. -/
def set {α : Type} (s : UndoState α) (value : Sum (α → α) α) : UndoState α :=
  { past := s.past ++ [s.present],
    present := match value with
      | Sum.inl f => f s.present
      | Sum.inr v => v,
    future := [] }

/-- Operation `undo`: when `past` is empty nothing changes; otherwise
`previous = past[past.length - 1]` becomes `present`, the old `present`
is consed onto `future`, and `past` loses its last element
(`past.slice(0, -1)`). -/
def undo {α : Type} (s : UndoState α) : UndoState α :=
  match s.past with
  | [] => s
  | p :: ps =>
    { past := (p :: ps).dropLast,
      present := (p :: ps).getLast (List.cons_ne_nil p ps),
      future := s.present :: s.future }

/-- Operation `redo`: when `future` is empty nothing changes; otherwise
`next = future[0]` becomes `present`, the old `present` is appended to
`past`, and `future` loses its head (`future.slice(1)`). -/
def redo {α : Type} (s : UndoState α) : UndoState α :=
  match s.future with
  | [] => s
  | next :: rest =>
    { past := s.past ++ [s.present], present := next, future := rest }

end UseUndoRedo

/-! ## useFetch's module-level cache and useLocalStorage
(src/README.md, §15.A and §5.2)

`useFetch.js` declares `const cache = new Map()` at module level, outside
every closure of the hook.  A successful fetch runs
`cache.set(url, { data: json, time: Date.now() })`; a later invocation's
`useState` initializer runs `cache.get(url)` and uses the cached data
when it is younger than `cacheTime`.  `useLocalStorage` writes
`localStorage.setItem(key, JSON.stringify(state))` in an effect and a
later mount's initializer reads `localStorage.getItem(key)` back.
JSON serialization is the identity on the plain data values modelled
here (`JSON.parse(JSON.stringify(v)) === v`), so both stores hold the
values themselves. -/

namespace HookStores

/-- The module-level `cache : Map` of `useFetch.js`, keyed by URL; an
entry holds the fetched `data` and the `time` of the fetch. -/
def FetchCache : Type := List (String × (JSVal × Nat))

/-- The empty `new Map()` the module starts with. -/
def emptyCache : FetchCache := []

/-- Lookup `cache.get(url)`. -/
def cacheGet (c : FetchCache) (url : String) : Option (JSVal × Nat) :=
  (c.find? (fun e => e.1 = url)).map Prod.snd

/-- Update `cache.set(url, { data, time })`: replaces any previous entry for
`url`. -/
def cacheSet (c : FetchCache) (url : String) (data : JSVal) (time : Nat) : FetchCache :=
  (url, (data, time)) :: c.filter (fun e => ¬ e.1 = url)

/-- The `.then(json => { cache.set(url, { data: json, time: Date.now() }); … })`
step of `useFetch`'s effect on a successful, non-canceled fetch. -/
def useFetchOnSuccess (c : FetchCache) (url : String) (json : JSVal) (now : Nat) :
    FetchCache :=
  cacheSet c url json now

/-- Hook `useFetch`'s `useState` initializer: `cache.get(url)`, returning the
cached data when `Date.now() - cached.time < cacheTime`, else `null`
(modelled as `none`). -/
def useFetchInit (c : FetchCache) (url : String) (now cacheTime : Nat) : Option JSVal :=
  match cacheGet c url with
  | some (data, time) => if now - time < cacheTime then some data else none
  | none => none

/-- The browser `localStorage`: a map from keys to stored values (values
stand for their JSON serializations, see the section comment). -/
def LocalStorage : Type := List (String × JSVal)

/-- Read `localStorage.getItem(key)`: `none` models `null`. -/
def lsGetItem (ls : LocalStorage) (key : String) : Option JSVal :=
  (ls.find? (fun e => e.1 = key)).map Prod.snd

/-- Write `localStorage.setItem(key, JSON.stringify(state))`, as run by
`useLocalStorage`'s effect. -/
def lsSetItem (ls : LocalStorage) (key : String) (state : JSVal) : LocalStorage :=
  (key, state) :: ls.filter (fun e => ¬ e.1 = key)

/-- Hook `useLocalStorage`'s `useState` initializer: parse the raw item when
present, otherwise fall back to `initialValue`. -/
def useLocalStorageInit (ls : LocalStorage) (key : String) (initialValue : JSVal) : JSVal :=
  match lsGetItem ls key with
  | some raw => raw
  | none => initialValue

end HookStores

/-! ## Theorems -/

section PromiseClaims

open PromisePolyfill

/-- Invoking the `onFulfilled` branch of a `then` handler on the fresh
derived promise settles it at once: it resolves with the callback's
result, rejects with its exception, or passes the value through. -/
theorem runOnFulfilled_fresh_settled (h : Handler) (v : JSVal) :
    (runOnFulfilled h v freshPromise).state ≠ PState.pending := by
  unfold runOnFulfilled
  cases h.onFulfilled with
  | none => simp [resolve, freshPromise]
  | some f =>
    cases hfv : f v with
    | ok r => simp [hfv, resolve, freshPromise]
    | error e => simp [hfv, reject, freshPromise]

/-- Symmetric settledness for the `onRejected` branch. -/
theorem runOnRejected_fresh_settled (h : Handler) (e : JSVal) :
    (runOnRejected h e freshPromise).state ≠ PState.pending := by
  unfold runOnRejected
  cases h.onRejected with
  | none => simp [reject, freshPromise]
  | some f =>
    cases hfe : f e with
    | ok r => simp [hfe, resolve, freshPromise]
    | error e' => simp [hfe, reject, freshPromise]

/-- C1: in the Promise polyfill the microtask queue is omitted — calling
`then(onFulfilled, onRejected)` on an already settled promise invokes the
matching handler branch synchronously, during the call itself, on the
stored value (`handler.onFulfilled(this.value)` when fulfilled,
`handler.onRejected(this.value)` when rejected): the call reports a
synchronous handler invocation and the derived promise it returns is
already settled, nothing having been deferred to a later task. -/
theorem promise_then_settled_synchronous (p : PromiseObj) (onF onR : Callback) :
    (p.state = PState.fulfilled →
      promiseThen p onF onR = (p, runOnFulfilled ⟨onF, onR⟩ p.value freshPromise, true) ∧
      (promiseThen p onF onR).2.1.state ≠ PState.pending) ∧
    (p.state = PState.rejected →
      promiseThen p onF onR = (p, runOnRejected ⟨onF, onR⟩ p.value freshPromise, true) ∧
      (promiseThen p onF onR).2.1.state ≠ PState.pending) := by
  obtain ⟨st, v, hs⟩ := p
  constructor
  · intro h
    subst h
    exact ⟨rfl, runOnFulfilled_fresh_settled _ _⟩
  · intro h
    subst h
    exact ⟨rfl, runOnRejected_fresh_settled _ _⟩

/-- Witness for C1 at a concrete fulfilled promise and a concrete
callback pair. -/
theorem promise_then_settled_synchronous_witness :
    promiseThen ⟨PState.fulfilled, JSVal.num 7, []⟩ (some (fun v => Except.ok v)) none =
      (⟨PState.fulfilled, JSVal.num 7, []⟩,
        runOnFulfilled ⟨some (fun v => Except.ok v), none⟩ (JSVal.num 7) freshPromise,
        true) ∧
    (promiseThen ⟨PState.fulfilled, JSVal.num 7, []⟩ (some (fun v => Except.ok v)) none).2.1.state
      ≠ PState.pending :=
  (promise_then_settled_synchronous ⟨PState.fulfilled, JSVal.num 7, []⟩
    (some (fun v => Except.ok v)) none).1 rfl

/-- C8: the polyfill's settled-state invariant — `resolve` and `reject`
only ever move the state from `"pending"` to `"fulfilled"` respectively
`"rejected"`, and once the state is no longer `"pending"` any later call
to either leaves the whole promise object (state and value included)
unchanged, the guard returning immediately (it also notifies no
handler). -/
theorem promise_settle_invariant (p : PromiseObj) (v e : JSVal) :
    ((resolve p v).1.state = p.state ∨
      (p.state = PState.pending ∧ (resolve p v).1.state = PState.fulfilled)) ∧
    ((reject p e).1.state = p.state ∨
      (p.state = PState.pending ∧ (reject p e).1.state = PState.rejected)) ∧
    (p.state ≠ PState.pending →
      (resolve p v).1 = p ∧ (resolve p v).2 = [] ∧
      (reject p e).1 = p ∧ (reject p e).2 = []) := by
  by_cases h : p.state = PState.pending
  · refine ⟨Or.inr ⟨h, ?_⟩, Or.inr ⟨h, ?_⟩, fun hne => absurd h hne⟩
    · simp [resolve, h]
    · simp [reject, h]
  · refine ⟨Or.inl ?_, Or.inl ?_, fun _ => ?_⟩
    · simp [resolve, h]
    · simp [reject, h]
    · simp [resolve, reject, h]

/-- Witness for C8 at a concrete already-fulfilled promise: a later
`resolve` and a later `reject` leave it untouched. -/
theorem promise_settle_invariant_witness :
    (resolve ⟨PState.fulfilled, JSVal.num 1, []⟩ (JSVal.num 2)).1 =
      ⟨PState.fulfilled, JSVal.num 1, []⟩ ∧
    (resolve ⟨PState.fulfilled, JSVal.num 1, []⟩ (JSVal.num 2)).2 = [] ∧
    (reject ⟨PState.fulfilled, JSVal.num 1, []⟩ (JSVal.num 3)).1 =
      ⟨PState.fulfilled, JSVal.num 1, []⟩ ∧
    (reject ⟨PState.fulfilled, JSVal.num 1, []⟩ (JSVal.num 3)).2 = [] :=
  (promise_settle_invariant ⟨PState.fulfilled, JSVal.num 1, []⟩
    (JSVal.num 2) (JSVal.num 3)).2.2 (by decide)

end PromiseClaims

section UseAsyncClaims

open UseAsync

/-- C4: `useAsync`'s `execute` handles failure with the `try`/`catch`
and the mounted guard only — a rejection with `err` while still mounted
updates the state to `{loading: false, error: err, value: null}` and
rethrows `err`; and any settlement (fulfilment or rejection) arriving
after the unmount cleanup has cleared `mounted.current` performs no
state update at all. -/
theorem useAsync_reject_and_unmount {ε τ : Type} (e : ε) (out : Outcome ε τ) :
    (execute (some (Outcome.err e : Outcome ε τ)) true).settleUpdate =
      some ⟨false, some e, none⟩ ∧
    (execute (some (Outcome.err e : Outcome ε τ)) true).thrown = some e ∧
    (execute (some out) false).settleUpdate = none := by
  refine ⟨rfl, rfl, ?_⟩
  cases out <;> rfl

end UseAsyncClaims

section UseWebSocketClaims

open UseWebSocket

/-- After the cleanup has cleared `shouldReconnect`, no later firing of
`onclose` ever sets it again. -/
theorem oncloseIter_cleanup_shouldReconnect (r : ReconnectState) (k : Nat) :
    (oncloseIter (cleanup r) k).shouldReconnect = false := by
  induction k with
  | zero => rfl
  | succ k ih => simp [oncloseIter, onclose, ih]

/-- C5: `useWebSocket` cleanup-on-unmount — once the effect's cleanup has
set `reconnectRef.current.shouldReconnect` to `false` (and closed the
socket), any subsequently fired `onclose` handler, however many have
fired before it, schedules no reconnect: no `setTimeout(connect, …)` is
ever issued again. -/
theorem useWebSocket_no_reconnect_after_cleanup (r : ReconnectState) (k : Nat) :
    (onclose (oncloseIter (cleanup r) k)).scheduledReconnect = none := by
  simp [onclose, oncloseIter_cleanup_shouldReconnect r k]

end UseWebSocketClaims

section CycleClaims

open CycleClosure

/-- C10: calling `cycle` with zero arguments never throws — every call of
the returned closure yields `undefined`: the first call reads
`values[0]` of the empty array, and every later call indexes with the
`NaN` that `(index + 1) % 0` produced, the index being `NaN` from the
first update onwards. -/
theorem cycle_empty_always_undefined {α : Type} (j : Nat) :
    cycleNth ([] : List α) j = none ∧
    cycleIdx ([] : List α) (j + 1) = JSIdx.nan := by
  refine ⟨?_, rfl⟩
  cases j with
  | zero => rfl
  | succ j => rfl

/-- For a non-empty value list the closure's private index before the
`j`-th call is exactly `j` reduced modulo the number of values. -/
theorem cycleIdx_mod {α : Type} (values : List α) (h : values ≠ []) (j : Nat) :
    cycleIdx values j = JSIdx.num (j % values.length) := by
  induction j with
  | zero => simp [cycleIdx]
  | succ j ih =>
    cases values with
    | nil => exact absurd rfl h
    | cons a as =>
      have hmod : (j % (a :: as).length + 1) % (a :: as).length =
          (j + 1) % (a :: as).length :=
        (Nat.mod_modEq j (a :: as).length).add_right 1
      simp [cycleIdx, ih, jsModSucc, List.length_cons, hmod]

/-- C6: the cycling generator — for every non-empty argument list, the
closure returned by `cycle(...values)` yields `values[(k-1) mod n]` on
its `k`-th call (written 0-indexed: call `j` yields `values[j mod n]`),
so after `n` calls the cycle restarts at `values[0]`; the only state the
model carries across calls is the private index variable. -/
theorem cycle_nth_cycles {α : Type} (values : List α) (h : values ≠ []) (j : Nat) :
    cycleNth values j =
      some (values.get ⟨j % values.length, Nat.mod_lt j (List.length_pos.mpr h)⟩) := by
  rw [cycleNth, cycleIdx_mod values h j]
  exact List.get?_eq_get (Nat.mod_lt j (List.length_pos.mpr h))

/-- Witness for C6: the fourth call of `cycle("red", "green", "blue")`
restarts the cycle at `"red"`, and the fifth yields `"green"`. -/
theorem cycle_nth_cycles_witness :
    cycleNth ["red", "green", "blue"] 3 = some "red" ∧
    cycleNth ["red", "green", "blue"] 4 = some "green" := by
  constructor
  · simpa using cycle_nth_cycles ["red", "green", "blue"] (by simp) 3
  · simpa using cycle_nth_cycles ["red", "green", "blue"] (by simp) 4

end CycleClaims

section UndoRedoClaims

open UseUndoRedo

/-- C9: `useUndoRedo` round-trips — with a non-empty `past`, `undo`
followed by `redo` restores the `(past, present, future)` triple
exactly; with a non-empty `future`, `redo` followed by `undo` does too;
and `set(value)` always empties `future`. -/
theorem useUndoRedo_roundtrip {α : Type} (s : UndoState α) (value : Sum (α → α) α) :
    (s.past ≠ [] → redo (undo s) = s) ∧
    (s.future ≠ [] → undo (redo s) = s) ∧
    (UseUndoRedo.set s value).future = [] := by
  obtain ⟨past, present, future⟩ := s
  refine ⟨?_, ?_, rfl⟩
  · intro h
    cases past with
    | nil => exact absurd rfl h
    | cons p ps =>
      have hrt := List.dropLast_append_getLast (l := p :: ps) (List.cons_ne_nil p ps)
      simp only [undo, redo]
      exact UndoState.mk.injEq .. ▸ ⟨hrt, rfl, rfl⟩
  · intro h
    cases future with
    | nil => exact absurd rfl h
    | cons y f =>
      simp only [redo]
      cases past with
      | nil => simp [undo]
      | cons a as =>
        have hu : undo (⟨(a :: as) ++ [present], y, f⟩ : UndoState α) =
            ⟨((a :: as) ++ [present]).dropLast,
              ((a :: as) ++ [present]).getLast (by simp), y :: f⟩ := rfl
        rw [hu]
        have hd : (a :: (as ++ [present])).dropLast = a :: as :=
          @List.dropLast_concat α (a :: as) present
        simp [hd, List.getLast_concat]

/-- Witness for C9 at a concrete history with non-empty `past` and
`future`. -/
theorem useUndoRedo_roundtrip_witness :
    redo (undo (⟨[1], 2, [3]⟩ : UndoState Nat)) = ⟨[1], 2, [3]⟩ ∧
    undo (redo (⟨[1], 2, [3]⟩ : UndoState Nat)) = ⟨[1], 2, [3]⟩ ∧
    (UseUndoRedo.set (⟨[1], 2, [3]⟩ : UndoState Nat) (Sum.inr 9)).future = [] :=
  ⟨(useUndoRedo_roundtrip ⟨[1], 2, [3]⟩ (Sum.inr 9)).1 (by decide),
    (useUndoRedo_roundtrip ⟨[1], 2, [3]⟩ (Sum.inr 9)).2.1 (by decide),
    (useUndoRedo_roundtrip ⟨[1], 2, [3]⟩ (Sum.inr 9)).2.2⟩

end UndoRedoClaims

section StoreClaims

open HookStores

/-- C2 counterexample: the repository does contain operations that write
to stores outside their own closure and are read back by later
invocations.  Concretely, a successful `useFetch` of `"/api/users"`
writes into the module-level `cache`, and a later invocation's `useState`
initializer reads that data back (while on the fresh, empty cache it
would read `null`); likewise `useLocalStorage`'s effect writes through
`localStorage.setItem` and a later mount's initializer reads it back
instead of the supplied initial value. -/
theorem hook_store_readback_counterexample :
    useFetchInit (useFetchOnSuccess emptyCache "/api/users" (JSVal.str "payload") 0)
        "/api/users" 60000 300000 = some (JSVal.str "payload") ∧
    useFetchInit emptyCache "/api/users" 60000 300000 = none ∧
    useLocalStorageInit (lsSetItem ([] : LocalStorage) "theme" (JSVal.str "dark"))
        "theme" JSVal.undef = JSVal.str "dark" ∧
    useLocalStorageInit ([] : LocalStorage) "theme" JSVal.undef = JSVal.undef := by
  refine ⟨?_, rfl, rfl, rfl⟩
  simp [useFetchInit, useFetchOnSuccess, cacheSet, cacheGet, emptyCache]

/-- C2 amended: apart from two deliberate exceptions the repository has
no persistence or storage layer — the exceptions being `useLocalStorage`,
whose effect persists the state under its key in `localStorage` and whose
initializer on a later mount reads exactly that value back, and
`useFetch`, which keeps a module-level cache keyed by URL: data cached by
a successful fetch is returned by a later invocation's initializer as
long as it is younger than `cacheTime`. -/
theorem hook_stores_persist (c : FetchCache) (url : String) (d : JSVal)
    (t now cacheTime : Nat) (h : now - t < cacheTime)
    (ls : LocalStorage) (key : String) (v iv : JSVal) :
    useFetchInit (useFetchOnSuccess c url d t) url now cacheTime = some d ∧
    useLocalStorageInit (lsSetItem ls key v) key iv = v := by
  constructor
  · simp [useFetchInit, useFetchOnSuccess, cacheSet, cacheGet, h]
  · simp [useLocalStorageInit, lsSetItem, lsGetItem]

/-- Witness for the amended C2 at a concrete cache, store and clock. -/
theorem hook_stores_persist_witness :
    useFetchInit (useFetchOnSuccess [("x", (JSVal.num 0, 5))] "/u" (JSVal.num 42) 100)
        "/u" 1000 5000 = some (JSVal.num 42) ∧
    useLocalStorageInit
        (lsSetItem [("other", JSVal.null)] "count" (JSVal.num 3)) "count" JSVal.undef =
      JSVal.num 3 :=
  hook_stores_persist [("x", (JSVal.num 0, 5))] "/u" (JSVal.num 42) 100 1000 5000
    (by decide) [("other", JSVal.null)] "count" (JSVal.num 3) JSVal.undef

end StoreClaims

section DebounceClaims

open DebounceClosure

/-- While a burst is running, the armed timer set by the latest
invocation never fires before the next invocation of the burst, so each
invocation cancels it and re-arms; only the timer of the last invocation
fires. -/
theorem debounceExec_pending {α : Type} (delay : Nat) :
    ∀ (rest : List (Nat × α)) (t : Nat) (a : α),
      List.Chain' (fun p q => p.1 ≤ q.1 ∧ q.1 < p.1 + delay) ((t, a) :: rest) →
      debounceExec delay (some (t + delay, a)) rest =
        [((((t, a) :: rest).getLast (List.cons_ne_nil _ _)).1 + delay,
          (((t, a) :: rest).getLast (List.cons_ne_nil _ _)).2)] := by
  intro rest
  induction rest with
  | nil => intro t a _; rfl
  | cons hd tl ih =>
    intro t a hchain
    obtain ⟨t', a'⟩ := hd
    rw [List.chain'_cons] at hchain
    obtain ⟨⟨_, hlt⟩, htail⟩ := hchain
    have hnot : ¬ t + delay ≤ t' := Nat.not_le.mpr hlt
    calc debounceExec delay (some (t + delay, a)) ((t', a') :: tl)
        = debounceExec delay (some (t' + delay, a')) tl := by
          simp [debounceExec, hnot]
      _ = [((((t', a') :: tl).getLast (List.cons_ne_nil _ _)).1 + delay,
            (((t', a') :: tl).getLast (List.cons_ne_nil _ _)).2)] := ih t' a' htail
      _ = [((((t, a) :: (t', a') :: tl).getLast (List.cons_ne_nil _ _)).1 + delay,
            (((t, a) :: (t', a') :: tl).getLast (List.cons_ne_nil _ _)).2)] := by
          rw [List.getLast_cons_cons]

/-- C7: the debounce snippet — across any finite burst of invocations in
which each invocation arrives no earlier than the one before it and
strictly less than `delay` ms after it, every invocation but the last
has its scheduled call of `fn` cancelled by `clearTimeout`, and `fn`
executes exactly once, `delay` ms after the last invocation, with the
arguments of that last invocation. -/
theorem debounce_burst_fires_once {α : Type} (delay : Nat) (invs : List (Nat × α))
    (h : invs ≠ [])
    (hb : invs.Chain' (fun p q => p.1 ≤ q.1 ∧ q.1 < p.1 + delay)) :
    debounceRun delay invs = [((invs.getLast h).1 + delay, (invs.getLast h).2)] := by
  cases invs with
  | nil => exact absurd rfl h
  | cons hd rest =>
    obtain ⟨t, a⟩ := hd
    have hstep : debounceRun delay ((t, a) :: rest) =
        debounceExec delay (some (t + delay, a)) rest := by
      cases rest <;> rfl
    rw [hstep]
    exact debounceExec_pending delay rest t a hb

/-- Witness for C7: three invocations at 0, 5 and 8 ms with a 10 ms
delay execute `fn` exactly once, at 18 ms, with the last arguments. -/
theorem debounce_burst_fires_once_witness :
    debounceRun 10 [(0, 100), (5, 200), (8, 300)] = [(18, 300)] := by
  simpa using debounce_burst_fires_once 10 [(0, (100 : Nat)), (5, 200), (8, 300)]
    (by decide) (by norm_num [List.chain'_cons])

end DebounceClaims

section MapClaims

open ArrayPolyfill

/-- The polyfill's loop never changes the length of `A`: every
assignment targets an index below the initial length. -/
theorem mapFold_length {α β : Type} (O : ArrayLike α) (f : α → Nat → ArrayLike α → β) :
    ∀ (n : Nat) (A : ArrayLike β), (n : Int) ≤ A.length →
      ((List.range n).foldl (mapLoopStep O f) A).length = A.length := by
  intro n
  induction n with
  | zero => intro A _; simp
  | succ n ih =>
    intro A hn
    have hlen : ((List.range n).foldl (mapLoopStep O f) A).length = A.length :=
      ih A (le_trans (by push_cast; omega) hn)
    rw [List.range_succ, List.foldl_append, List.foldl_cons, List.foldl_nil]
    rcases hOn : O.elems n with _ | v
    · simp [mapLoopStep, hOn, hlen]
    · have hle : (n : Int) + 1 ≤ ((List.range n).foldl (mapLoopStep O f) A).length := by
        rw [hlen]; push_cast at hn ⊢; omega
      simp [mapLoopStep, hOn, setElem, hlen, max_eq_left (le_trans hle (le_of_eq rfl))]
      omega

/-- What the polyfill's loop leaves at index `i` after `n` iterations:
`callback(O[i], i, O)` for the indices `i < n` present in `O`, the
underlying entry of the initial array otherwise. -/
theorem mapFold_elems {α β : Type} (O : ArrayLike α) (f : α → Nat → ArrayLike α → β) :
    ∀ (n : Nat) (A : ArrayLike β) (i : Nat),
      ((List.range n).foldl (mapLoopStep O f) A).elems i =
        if i < n then
          match O.elems i with
          | some v => some (f v i O)
          | none => A.elems i
        else A.elems i := by
  intro n
  induction n with
  | zero => intro A i; simp
  | succ n ih =>
    intro A i
    rw [List.range_succ, List.foldl_append, List.foldl_cons, List.foldl_nil]
    rcases hOn : O.elems n with _ | v
    · rw [show mapLoopStep O f ((List.range n).foldl (mapLoopStep O f) A) n =
          (List.range n).foldl (mapLoopStep O f) A by simp [mapLoopStep, hOn]]
      rw [ih A i]
      by_cases hi : i < n
      · simp [hi, Nat.lt_succ_of_lt hi]
      · by_cases hin : i = n
        · subst hin
          simp [hi, Nat.lt_succ_self, hOn]
        · have hni : ¬ i < n + 1 := by omega
          simp [hi, hni]
    · rw [show mapLoopStep O f ((List.range n).foldl (mapLoopStep O f) A) n =
          setElem ((List.range n).foldl (mapLoopStep O f) A) n (f v n O) by
            simp [mapLoopStep, hOn]]
      by_cases hin : i = n
      · subst hin
        simp [setElem, Nat.lt_succ_self, hOn]
      · rw [show (setElem ((List.range n).foldl (mapLoopStep O f) A) n (f v n O)).elems i =
            ((List.range n).foldl (mapLoopStep O f) A).elems i by simp [setElem, hin]]
        rw [ih A i]
        by_cases hi : i < n
        · simp [hi, Nat.lt_succ_of_lt hi]
        · have hni : ¬ i < n + 1 := by omega
          simp [hi, hni]

/-- C3: the `Array.prototype.map` polyfill reimplements the native
semantics exactly — on every array-like `O` with `len = O.length >>> 0`
and every callback, it produces an array of length `len` whose entry at
each index `k < len` present in `O` is `callback(O[k], k, O)`, holes of
`O` staying holes, which is precisely the native/reference definition of
`map` (`mapNativeSpec`). -/
theorem map_polyfill_matches_native {α β : Type} (O : ArrayLike α)
    (callback : α → Nat → ArrayLike α → β) :
    (mapPolyfill O callback).length = (mapNativeSpec O callback).length ∧
    ∀ k, (mapPolyfill O callback).elems k = (mapNativeSpec O callback).elems k := by
  constructor
  · show ((List.range (toUint32 O.length)).foldl (mapLoopStep O callback)
        (newArray (toUint32 O.length))).length = (mapNativeSpec O callback).length
    rw [mapFold_length O callback (toUint32 O.length) (newArray (toUint32 O.length))
      (le_of_eq rfl)]
    rfl
  · intro k
    show ((List.range (toUint32 O.length)).foldl (mapLoopStep O callback)
        (newArray (toUint32 O.length))).elems k = (mapNativeSpec O callback).elems k
    rw [mapFold_elems O callback (toUint32 O.length) (newArray (toUint32 O.length)) k]
    show _ = if k < toUint32 O.length
      then (O.elems k).map (fun v => callback v k O) else none
    by_cases hk : k < toUint32 O.length
    · rcases hOk : O.elems k with _ | v <;> simp [hk, hOk, newArray]
    · simp [hk, newArray]

end MapClaims
